import Mathlib

/-!
Shallow embedding of `export_data.py` (BittyTax audit/tax export script).

Python strings are modelled by `String` (logically a list of code points,
matching Python `len`/slicing semantics).  Python `Decimal` values are
modelled exactly by `Dec` below (a scaled integer), `None` by `Option`.
External BittyTax types (`TransactionRecord`, `AuditLogEntry`,
`TaxEventCapitalGains`, the `TrType` enum, the audit-log part enum) are
modelled structurally with exactly the fields the script reads.
-/

/-- Exact decimal number, modelling Python `Decimal`: the value is
`mant / 10 ^ exp`.  Decimal arithmetic on the money amounts handled by the
script is exact, which this representation captures. -/
structure Dec where
  mant : Int
  exp : Nat
deriving DecidableEq

namespace Dec

/-- The decimal zero, `Decimal(0)`. -/
def zero : Dec := ⟨0, 0⟩

/-- Exact decimal addition (align exponents, add mantissas), modelling
`Decimal.__add__`. -/
def add (a b : Dec) : Dec :=
  let m := max a.exp b.exp
  ⟨a.mant * (10 : Int) ^ (m - a.exp) + b.mant * (10 : Int) ^ (m - b.exp), m⟩

/-- Decimal negation, modelling unary minus on `Decimal`. -/
def neg (a : Dec) : Dec := ⟨-a.mant, a.exp⟩

/-- Strip trailing zero digits from a mantissa/exponent pair, the effect of
`Decimal.normalize()` composed with plain (`:f`) formatting. -/
def stripZeros : Int → Nat → Int × Nat
  | m, 0 => (m, 0)
  | m, e + 1 => if m % 10 = 0 then stripZeros (m / 10) e else (m, e + 1)

end Dec

/-- Decimal digit string of a natural number (the digits of Python
`str(int)`); the first argument is recursion fuel, instantiated with the
number itself. -/
def natDigits : Nat → Nat → List Char
  | 0, _ => []
  | fuel + 1, n => if n = 0 then [] else natDigits fuel (n / 10) ++ [Char.ofNat (48 + n % 10)]

/-- Python `str` of a natural number. -/
def pyNatStr (n : Nat) : String := if n = 0 then "0" else String.mk (natDigits n n)

/-- Left-pad a digit string with zeros up to width `e` (fraction padding of
`:f` formatting). -/
def padZeros (s : String) (e : Nat) : String :=
  String.mk (List.replicate (e - s.length) '0') ++ s

/-- Plain-notation rendering of the decimal `m / 10 ^ e`, as produced by
Python `format(Decimal, 'f')`: optional sign, integer part, and for `e > 0`
a point followed by exactly `e` fraction digits. -/
def renderDec (m : Int) (e : Nat) : String :=
  let sign := if m < 0 then "-" else ""
  let n := m.natAbs
  if e = 0 then sign ++ pyNatStr n
  else sign ++ pyNatStr (n / 10 ^ e) ++ "." ++ padZeros (pyNatStr (n % 10 ^ e)) e

/-- Round-half-even integer division `a / b` (Python `Decimal` default
rounding used by `.2f` formatting). -/
def divHalfEven (a : Int) (b : Nat) : Int :=
  let q := Int.fdiv a b
  let r := a - q * b
  if 2 * r < b then q
  else if (b : Int) < 2 * r then q + 1
  else if q % 2 = 0 then q else q + 1

/-- `fmt_qty` from the script: empty string for `None`, otherwise
`f-string` of the normalized decimal in plain notation
(trailing fraction zeros stripped). -/
def fmt_qty : Option Dec → String
  | none => ""
  | some d =>
    let p := Dec.stripZeros d.mant d.exp
    renderDec p.1 p.2

/-- `fmt_val` from the script: empty string for `None`, otherwise the value
formatted with exactly two fraction digits (`.2f`, half-even rounding).
Python keeps the operand's sign even when rounding reaches zero (a negative
value rounding to zero prints `-0.00`), so the sign is taken from the
original mantissa when the rounded mantissa is zero. -/
def fmt_val : Option Dec → String
  | none => ""
  | some d =>
    let m2 : Int :=
      if d.exp ≤ 2 then d.mant * (10 : Int) ^ (2 - d.exp)
      else divHalfEven d.mant (10 ^ (d.exp - 2))
    if d.mant < 0 ∧ m2 = 0 then "-" ++ renderDec m2 2 else renderDec m2 2

theorem natDigits_ne_nil (fuel n : Nat) (hn : n ≠ 0) (hf : fuel ≠ 0) :
    natDigits fuel n ≠ [] := by
  cases fuel with
  | zero => exact absurd rfl hf
  | succ f =>
    simp only [natDigits, hn, if_false]
    intro h
    exact List.append_ne_nil_of_right_ne_nil _ (by simp) h

theorem pyNatStr_length_pos (n : Nat) : 0 < (pyNatStr n).length := by
  by_cases hn : n = 0
  · subst hn; decide
  · simp only [pyNatStr, hn, if_false]
    have h := natDigits_ne_nil n n hn hn
    show 0 < (natDigits n n).length
    exact List.length_pos.mpr h

theorem string_ne_empty_of_length_pos {s : String} (h : 0 < s.length) : s ≠ "" := by
  intro he
  rw [he] at h
  exact Nat.lt_irrefl 0 h

theorem renderDec_length_pos (m : Int) (e : Nat) : 0 < (renderDec m e).length := by
  simp only [renderDec]
  have hdot : ("." : String).length = 1 := rfl
  have h1 := pyNatStr_length_pos m.natAbs
  have h2 := pyNatStr_length_pos (m.natAbs / 10 ^ e)
  split <;> split <;> simp only [String.length_append] <;> omega

theorem fmt_qty_some_ne_empty (d : Dec) : fmt_qty (some d) ≠ "" := by
  unfold fmt_qty
  exact string_ne_empty_of_length_pos (renderDec_length_pos _ _)

theorem fmt_val_some_ne_empty (d : Dec) : fmt_val (some d) ≠ "" := by
  apply string_ne_empty_of_length_pos
  simp only [fmt_val]
  split <;> split
  all_goals
    first
      | exact renderDec_length_pos _ _
      | · rw [String.length_append]
          have h1 : ("-" : String).length = 1 := rfl
          omega

/-- Python slice `s[:k]` on a string (code-point prefix). -/
def pyTake (s : String) (k : Nat) : String := String.mk (s.data.take k)

/-- Python `str.ljust`: pad on the right with spaces to width `w` (never
truncates). -/
def ljust (s : String) (w : Nat) : String :=
  s ++ String.mk (List.replicate (w - s.length) ' ')

/-- Python `str.rjust`: pad on the left with spaces to width `w` (never
truncates). -/
def rjust (s : String) (w : Nat) : String :=
  String.mk (List.replicate (w - s.length) ' ') ++ s

/-- Python `sep.join(parts)`. -/
def joinSep (sep : String) : List String → String
  | [] => ""
  | [x] => x
  | x :: y :: rest => x ++ sep ++ joinSep sep (y :: rest)

theorem ljust_length (s : String) (w : Nat) : (ljust s w).length = max s.length w := by
  unfold ljust
  rw [String.length_append]
  show s.length + (List.replicate (w - s.length) ' ').length = max s.length w
  rw [List.length_replicate]
  omega

theorem rjust_length (s : String) (w : Nat) : (rjust s w).length = max s.length w := by
  unfold rjust
  rw [String.length_append]
  show (List.replicate (w - s.length) ' ').length + s.length = max s.length w
  rw [List.length_replicate]
  omega

theorem joinSep_length (sep : String) :
    ∀ l : List String, l ≠ [] →
      (joinSep sep l).length = (l.map String.length).sum + sep.length * (l.length - 1) := by
  intro l
  induction l with
  | nil => intro h; exact absurd rfl h
  | cons x rest ih =>
    intro _
    cases rest with
    | nil => simp [joinSep]
    | cons y t =>
      show (x ++ sep ++ joinSep sep (y :: t)).length = _
      rw [String.length_append, String.length_append, ih (by simp)]
      simp only [List.map_cons, List.sum_cons, List.length_cons, Nat.add_sub_cancel]
      ring

/-- The BittyTax transaction-type enum (`TrType`), modelled with the five
income classifications the script distinguishes plus a catch-all for every
other member; `value` is the display label. -/
inductive TrType where
  | mining
  | staking
  | dividend
  | interest
  | income
  | other (label : String)
deriving DecidableEq

/-- Display label of a transaction type (`TrType.value`). -/
def TrType.value : TrType → String
  | .mining => "Mining"
  | .staking => "Staking"
  | .dividend => "Dividend"
  | .interest => "Interest"
  | .income => "Income"
  | .other label => label

/-- `INCOME_TYPES` from the script: the set of income classifications,
membership tested with `in`. -/
def INCOME_TYPES : List TrType :=
  [TrType.mining, TrType.staking, TrType.dividend, TrType.interest, TrType.income]

/-- The audit-log part enum: which leg of the transaction an audit entry
records.  `name` is the Python enum member name the script compares
against. -/
inductive TrPart where
  | BUY
  | SELL
  | FEE
deriving DecidableEq

/-- Python enum `.name` of an audit-log part. -/
def TrPart.name : TrPart → String
  | .BUY => "BUY"
  | .SELL => "SELL"
  | .FEE => "FEE"

/-- Display `.value` of an audit-log part (modelled by its member name; the
script only displays it, never branches on it). -/
def TrPart.value (p : TrPart) : String := p.name

/-- One leg (`Buy` or `Sell` object) of a transaction record: asset symbol,
quantity, and the optional valuation data the script reads
(`cost`, `fee_value`). -/
structure Leg where
  asset : String
  quantity : Dec
  cost : Option Dec
  fee_value : Option Dec
deriving DecidableEq

/-- Raw transfer data (`tx_raw` on the source row): hash and source /
destination identifiers, with the empty string for an absent field
(Python falsiness). -/
structure TxRaw where
  tx_hash : String
  tx_src : String
  tx_dest : String
deriving DecidableEq

/-- A BittyTax `TransactionRecord` as read by the script: type
classification, optional buy and sell legs, composite id `tid` (empty list
models a missing / falsy id; the head is the stable transaction key), the
formatted timestamp, and optional raw transfer data. -/
structure TransactionRecord where
  t_type : TrType
  buy : Option Leg
  sell : Option Leg
  tid : List Nat
  timestamp : String
  tx_raw : Option TxRaw
deriving DecidableEq

/-- `ts` from the script: the record's formatted timestamp
(`tr._format_timestamp()`, an external method modelled as a field). -/
def ts (tr : TransactionRecord) : String := tr.timestamp

/-- `fmt_tx` from the script: transfer hash if present, else
`source->destination`, a single known side, or empty. -/
def fmt_tx (tr : TransactionRecord) : String :=
  match tr.tx_raw with
  | none => ""
  | some txr =>
    if txr.tx_hash ≠ "" then txr.tx_hash
    else
      match (if txr.tx_src ≠ "" then [txr.tx_src] else []) ++
            (if txr.tx_dest ≠ "" then [txr.tx_dest] else []) with
      | [a, b] => a ++ "->" ++ b
      | [a] => a
      | _ => ""

/-- A BittyTax `AuditLogEntry`: back-reference to its transaction record,
role tag, wallet, and the per-event quantities (each optional, formatted
via `fmt_qty`). -/
structure AuditLogEntry where
  t_record : TransactionRecord
  tr_part : TrPart
  wallet : String
  change : Option Dec
  fee : Option Dec
  balance : Option Dec
  total : Option Dec
deriving DecidableEq

/-- A `TaxEventCapitalGains` as read by the script: the (monkey-patched,
possibly absent) back-reference to its originating transaction record and
the four money amounts. -/
structure TaxEventCG where
  t_record : Option TransactionRecord
  proceeds : Dec
  cost : Dec
  fees : Dec
  gain : Dec
deriving DecidableEq

/-- One disposal aggregate: the dict of summed proceeds / cost / fees /
gain the script keeps per transaction key in `tr_to_pl`. -/
structure Agg where
  proceeds : Dec
  cost : Dec
  fees : Dec
  gain : Dec
deriving DecidableEq

/-- The zero-initialised aggregate placed by `setdefault`. -/
def Agg.zero : Agg := ⟨Dec.zero, Dec.zero, Dec.zero, Dec.zero⟩

/-- Add one tax event's amounts into an aggregate (`agg[...] += te....`). -/
def Agg.addEvent (a : Agg) (te : TaxEventCG) : Agg :=
  ⟨a.proceeds.add te.proceeds, a.cost.add te.cost, a.fees.add te.fees, a.gain.add te.gain⟩

/-- The transaction key a tax event resolves to: the head of its
record's `tid`, if the record and a truthy `tid` are present. -/
def eventKey (te : TaxEventCG) : Option Nat :=
  match te.t_record with
  | none => none
  | some tr =>
    match tr.tid with
    | [] => none
    | k :: _ => some k

/-- Processing of a single tax event in the aggregation loop: skip it when
it has no record or no truthy `tid`, otherwise `setdefault` a zero
aggregate under its key and add the event's amounts. -/
def plStep (acc : Nat → Option Agg) (te : TaxEventCG) : Nat → Option Agg :=
  match eventKey te with
  | none => acc
  | some k => fun k' => if k' = k then some (((acc k).getD Agg.zero).addEvent te) else acc k'

/-- The recognized tax events in iteration order: the year-keyed mapping
iterated in sorted year order, years missing from
`CCG.CG_DATA_INDIVIDUAL` skipped (membership modelled by `recognized`). -/
def recognizedEvents (taxEvents : List (Nat × List TaxEventCG)) (recognized : Nat → Bool) :
    List (Nat × List TaxEventCG) :=
  (taxEvents.mergeSort (fun a b => decide (a.1 ≤ b.1))).filter (fun p => recognized p.1)

/-- `tr_to_pl` from the script: the disposal aggregate mapping, built by
folding every recognized tax event through `plStep`. -/
def tr_to_pl (taxEvents : List (Nat × List TaxEventCG)) (recognized : Nat → Bool) :
    Nat → Option Agg :=
  (recognizedEvents taxEvents recognized).foldl (fun acc p => p.2.foldl plStep acc)
    (fun _ => none)

/-- Registration of one audit entry in the transaction-entry index
(`parts[e.tr_part.name] = e`), skipped when the record has no truthy
`tid`. -/
def idxStep (acc : Nat → TrPart → Option AuditLogEntry) (e : AuditLogEntry) :
    Nat → TrPart → Option AuditLogEntry :=
  match e.t_record.tid with
  | [] => acc
  | k :: _ => fun k' p' => if k' = k ∧ p' = e.tr_part then some e else acc k' p'

/-- `tr_to_entries` from the script: the transaction-entry index mapping a
transaction key and role to that transaction's audit entry with the role,
built over the whole asset-keyed audit log in its stored order. -/
def tr_to_entries (log : List (String × List AuditLogEntry)) :
    Nat → TrPart → Option AuditLogEntry :=
  log.foldl (fun acc p => p.2.foldl idxStep acc) (fun _ _ => none)

/-- The nine base event fields of an output row (always populated). -/
def baseRow (asset : String) (e : AuditLogEntry) : List String :=
  [asset, ts e.t_record, e.t_record.t_type.value, e.tr_part.value, e.wallet,
   fmt_qty e.change, fmt_qty e.fee, fmt_qty e.balance, fmt_qty e.total]

/-- The four disposal P/L columns (`sell_cols`): start empty, overwritten
with the formatted aggregate when the entry is the SELL leg, has a truthy
`tid`, and an aggregate exists for its key. -/
def sellCols (pl : Nat → Option Agg) (e : AuditLogEntry) : List String :=
  if e.tr_part.name = "SELL" then
    match e.t_record.tid with
    | k :: _ =>
      match pl k with
      | some agg =>
        [fmt_val (some agg.proceeds), fmt_val (some agg.cost),
         fmt_val (some agg.fees), fmt_val (some agg.gain)]
      | none => ["", "", "", ""]
    | [] => ["", "", "", ""]
  else ["", "", "", ""]

/-- The two income columns (`income_cols`): populated from the buy leg's
cost and fee value when the entry is the BUY leg of an income-type record
that has a buy leg. -/
def incomeCols (e : AuditLogEntry) : List String :=
  if e.tr_part.name = "BUY" ∧ INCOME_TYPES.contains e.t_record.t_type then
    match e.t_record.buy with
    | some b => [fmt_val b.cost, fmt_val b.fee_value]
    | none => ["", ""]
  else ["", ""]

/-- The four counter-asset columns: asset and signed quantity come from the
opposite leg stored on the transaction record, the two balances from the
opposite entry in the transaction-entry index; everything stays empty for
the FEE leg or when `tid` is falsy. -/
def counterCols (idx : Nat → TrPart → Option AuditLogEntry) (e : AuditLogEntry) :
    List String :=
  match e.t_record.tid with
  | [] => ["", "", "", ""]
  | k :: _ =>
    if e.tr_part.name = "BUY" then
      [(match e.t_record.sell with | some s => s.asset | none => ""),
       (match e.t_record.sell with | some s => fmt_qty (some s.quantity.neg) | none => ""),
       (match idx k TrPart.SELL with | some e2 => fmt_qty e2.balance | none => ""),
       (match idx k TrPart.SELL with | some e2 => fmt_qty e2.total | none => "")]
    else if e.tr_part.name = "SELL" then
      [(match e.t_record.buy with | some b => b.asset | none => ""),
       (match e.t_record.buy with | some b => fmt_qty (some b.quantity) | none => ""),
       (match idx k TrPart.BUY with | some e2 => fmt_qty e2.balance | none => ""),
       (match idx k TrPart.BUY with | some e2 => fmt_qty e2.total | none => "")]
    else ["", "", "", ""]

/-- One output row for one audit entry: the 20 ordered string fields
appended exactly as in the script's loop body. -/
def buildRow (pl : Nat → Option Agg) (idx : Nat → TrPart → Option AuditLogEntry)
    (asset : String) (e : AuditLogEntry) : List String :=
  baseRow asset e ++ sellCols pl e ++ incomeCols e ++ counterCols idx e ++ [fmt_tx e.t_record]

/-- The asset keys of the audit log in Python `sorted` (lexical) order. -/
def sortedAssets (log : List (String × List AuditLogEntry)) : List String :=
  (log.map Prod.fst).mergeSort (fun a b => decide (a ≤ b))

/-- Dictionary lookup `audit.audit_log[asset]` (first binding of the
key). -/
def assetEntries (log : List (String × List AuditLogEntry)) (a : String) :
    List AuditLogEntry :=
  (log.lookup a).getD []

/-- `data_rows` from the script: the emitted row sequence, appending one
row per audit entry while iterating assets in sorted order and each
asset's entries in stored order. -/
def exportRows (log : List (String × List AuditLogEntry))
    (taxEvents : List (Nat × List TaxEventCG)) (recognized : Nat → Bool) :
    List (List String) :=
  (sortedAssets log).foldl
    (fun acc a =>
      (assetEntries log a).foldl
        (fun acc2 e => acc2 ++ [buildRow (tr_to_pl taxEvents recognized) (tr_to_entries log) a e])
        acc)
    []

/-- `_should_output_csv` from the script, with the interactivity of
standard output (`sys.stdout.isatty()`) passed explicitly. -/
def should_output_csv (force_csv force_table isatty : Bool) : Bool :=
  if force_csv then true
  else if force_table then false
  else !isatty

/-- `_truncate_cell` from the script: return the text unchanged when it
fits, hard-cut with no marker when the width is at most 1, otherwise cut
to width minus one and append the marker literal.  In the source file that
literal is NOT a single ellipsis character: it is the three-character
mojibake sequence `U+00E2 U+20AC U+00A6` (a UTF-8 ellipsis re-decoded as
cp1252), written here with explicit escapes, so the marker has length 3 and
a truncated cell has length `max_width + 2`. -/
def truncate_cell (text : String) (max_width : Nat) : String :=
  if text.length ≤ max_width then text
  else if max_width ≤ 1 then pyTake text max_width
  else pyTake text (max_width - 1) ++ "\u00E2\u20AC\u00A6"

/-- The preliminary per-cell truncation cap (`soft_cap`). -/
def soft_cap : Nat := 28

/-- The structurally designated right-aligned (numeric-like) column
positions. -/
def numeric_indices : List Nat := [5, 6, 7, 8, 9, 10, 11, 12, 13, 14, 16, 17, 18]

/-- Python `enumerate`-style map carrying the element index, starting at
`s`. -/
def enumMapFrom {α β : Type} (f : Nat → α → β) : Nat → List α → List β
  | _, [] => []
  | i, x :: xs => f i x :: enumMapFrom f (i + 1) xs

/-- Python `enumerate`-style map carrying the element index. -/
def enumMap {α β : Type} (f : Nat → α → β) (l : List α) : List β := enumMapFrom f 0 l

/-- Rows after the preliminary `soft_cap` truncation (`prelim_rows`). -/
def prelimRows (rows : List (List String)) : List (List String) :=
  rows.map (fun r => r.map (fun c => truncate_cell c soft_cap))

/-- Per-column widths: for each header position, the max of the header
length and the lengths of that column's (capped) cells. -/
def colWidths (headers : List String) (prelim : List (List String)) : List Nat :=
  enumMap (fun i h => (prelim.map (fun r => (r.getD i "").length)).foldl max h.length) headers

/-- `total_width` from the script: column widths plus `3` per separator
plus the two edge spaces. -/
def totalWidth (ws : List Nat) : Int :=
  (ws.sum : Int) + 3 * ((ws.length : Int) - 1) + 2

/-- `min_widths` from the script: the per-column floor,
`max(min(12, len(header)), 4)`. -/
def min_widths (headers : List String) : List Nat :=
  headers.map (fun h => max (min 12 h.length) 4)

/-- Python `max` over a list of candidate indices with a key function,
keeping the current best and replacing it only on a strictly greater key
(ties keep the earlier index). -/
def argmaxAux (key : Nat → Int) : List Nat → Nat → Nat
  | [], best => best
  | i :: rest, best => argmaxAux key rest (if key best < key i then i else best)

/-- `max(range(n), key=...)`: first index among `0..n-1` with maximal
key. -/
def argmaxIdx (key : Nat → Int) : Nat → Nat
  | 0 => 0
  | n + 1 => argmaxAux key ((List.range n).map Nat.succ) 0

/-- The width-reduction loop: while the excess is positive, pick the column
with the greatest slack over its floor; stop if it has none, otherwise
shave one character off it.  The fuel is the excess `over_by`. -/
def shrink (minW : List Nat) : Nat → List Nat → List Nat
  | 0, ws => ws
  | fuel + 1, ws =>
    let i := argmaxIdx (fun j => (ws.getD j 0 : Int) - (minW.getD j 0 : Int)) ws.length
    if ws.getD i 0 ≤ minW.getD i 0 then ws
    else shrink minW fuel (ws.set i (ws.getD i 0 - 1))

/-- The final column widths: the natural widths, reduced by the shrink loop
when the total exceeds the terminal width. -/
def finalWidths (headers : List String) (rows : List (List String)) (term_cols : Nat) :
    List Nat :=
  let ws := colWidths headers (prelimRows rows)
  if totalWidth ws > (term_cols : Int) then
    shrink (min_widths headers) (totalWidth ws - (term_cols : Int)).toNat ws
  else ws

/-- The final cell texts: re-truncated per the shrunk widths when the table
was over budget, otherwise the capped cells unchanged. -/
def finalRows (headers : List String) (rows : List (List String)) (term_cols : Nat) :
    List (List String) :=
  let prelim := prelimRows rows
  if totalWidth (colWidths headers prelim) > (term_cols : Int) then
    prelim.map (fun r =>
      enumMap (fun i c => truncate_cell c ((finalWidths headers rows term_cols).getD i 0)) r)
  else prelim

/-- `fmt_cell` from the script: right- or left-justify a cell to its
column width. -/
def fmt_cell (text : String) (width : Nat) (right_align : Bool) : String :=
  if right_align then rjust text width else ljust text width

/-- The printed header line (including the leading space). -/
def headerLine (headers : List String) (ws : List Nat) : String :=
  " " ++ joinSep " | " (enumMap (fun i h => fmt_cell h (ws.getD i 0) false) headers)

/-- The printed separator line (including the leading space). -/
def sepLine (headers : List String) (ws : List Nat) : String :=
  " " ++ joinSep "-+-"
    ((List.range headers.length).map (fun i => String.mk (List.replicate (ws.getD i 0) '-')))

/-- One printed data line (including the leading space): each of the
header-count cells justified to its column width, right-aligned on the
numeric positions. -/
def dataLine (headers : List String) (ws : List Nat) (row : List String) : String :=
  " " ++ joinSep " | "
    ((List.range headers.length).map
      (fun i => fmt_cell (row.getD i "") (ws.getD i 0) (numeric_indices.contains i)))

/-- `_print_ascii_table` from the script, as the sequence of lines printed
to standard output: header line, separator line, then one line per row. -/
def print_ascii_table (headers : List String) (rows : List (List String)) (term_cols : Nat) :
    List String :=
  let ws := finalWidths headers rows term_cols
  headerLine headers ws :: sepLine headers ws ::
    (finalRows headers rows term_cols).map (dataLine headers ws)

theorem enumMapFrom_length {α β : Type} (f : Nat → α → β) :
    ∀ (s : Nat) (l : List α), (enumMapFrom f s l).length = l.length := by
  intro s l
  induction l generalizing s with
  | nil => rfl
  | cons x xs ih => simp [enumMapFrom, ih]

theorem enumMapFrom_getD {α β : Type} (f : Nat → α → β) (d : β) (d' : α) :
    ∀ (l : List α) (s i : Nat), i < l.length →
      (enumMapFrom f s l).getD i d = f (s + i) (l.getD i d') := by
  intro l
  induction l with
  | nil => intro s i h; simp at h
  | cons x xs ih =>
    intro s i h
    cases i with
    | zero => simp [enumMapFrom, List.getD]
    | succ j =>
      have hj : j < xs.length := by simpa using h
      show (enumMapFrom f (s + 1) xs).getD j d = _
      rw [ih (s + 1) j hj]
      have : s + 1 + j = s + (j + 1) := by omega
      rw [this]
      rfl

theorem le_foldl_max : ∀ (l : List Nat) (a : Nat), a ≤ l.foldl max a := by
  intro l
  induction l with
  | nil => intro a; exact Nat.le_refl a
  | cons x xs ih =>
    intro a
    exact Nat.le_trans (Nat.le_max_left a x) (ih (max a x))

theorem foldl_max_mem : ∀ (l : List Nat) (a x : Nat), x ∈ l → x ≤ l.foldl max a := by
  intro l
  induction l with
  | nil => intro a x h; simp at h
  | cons y ys ih =>
    intro a x h
    rcases List.mem_cons.mp h with h1 | h2
    · subst h1
      exact Nat.le_trans (Nat.le_max_right a x) (le_foldl_max ys (max a x))
    · exact ih (max a y) x h2

theorem colWidths_length (headers : List String) (prelim : List (List String)) :
    (colWidths headers prelim).length = headers.length :=
  enumMapFrom_length _ 0 headers

theorem cell_le_colWidths (headers : List String) (prelim : List (List String))
    (r : List String) (hr : r ∈ prelim) (i : Nat) (hi : i < headers.length) :
    (r.getD i "").length ≤ (colWidths headers prelim).getD i 0 := by
  unfold colWidths enumMap
  rw [enumMapFrom_getD _ 0 "" headers 0 i hi]
  rw [Nat.zero_add]
  exact foldl_max_mem _ _ _ (List.mem_map.mpr ⟨r, hr, rfl⟩)

theorem range_map_getD (l : List Nat) :
    (List.range l.length).map (fun i => l.getD i 0) = l := by
  apply List.ext_getElem
  · simp
  · intro i h1 h2
    simp only [List.getElem_map, List.getElem_range]
    rw [List.getD_eq_getElem?_getD, List.getElem?_eq_getElem h2]
    rfl

theorem fmt_cell_length (t : String) (w : Nat) (b : Bool) :
    (fmt_cell t w b).length = max t.length w := by
  unfold fmt_cell
  cases b
  · simp [ljust_length]
  · simp [rjust_length]

theorem getD_of_length_le {α : Type} {l : List α} {i : Nat} (d : α) (h : l.length ≤ i) :
    l.getD i d = d := by
  rw [List.getD_eq_getElem?_getD, List.getElem?_eq_none h]
  rfl

theorem argmaxAux_spec (key : Nat → Int) :
    ∀ (l : List Nat) (best : Nat),
      (argmaxAux key l best = best ∨ argmaxAux key l best ∈ l) ∧
      key best ≤ key (argmaxAux key l best) ∧
      ∀ j ∈ l, key j ≤ key (argmaxAux key l best) := by
  intro l
  induction l with
  | nil =>
    intro best
    refine ⟨Or.inl rfl, le_refl _, ?_⟩
    intro j hj
    simp at hj
  | cons i rest ih =>
    intro best
    obtain ⟨hm, hk, hall⟩ := ih (if key best < key i then i else best)
    refine ⟨?_, ?_, ?_⟩
    · rcases hm with h | h
      · by_cases hc : key best < key i
        · right
          rw [show argmaxAux key (i :: rest) best = argmaxAux key rest (if key best < key i then i else best) from rfl, h, if_pos hc]
          exact List.mem_cons_self i rest
        · left
          rw [show argmaxAux key (i :: rest) best = argmaxAux key rest (if key best < key i then i else best) from rfl, h, if_neg hc]
      · right
        exact List.mem_cons_of_mem _ h
    · refine le_trans ?_ hk
      by_cases hc : key best < key i
      · rw [if_pos hc]
        exact le_of_lt hc
      · rw [if_neg hc]
    · intro j hj
      rcases List.mem_cons.mp hj with rfl | hj'
      · refine le_trans ?_ hk
        by_cases hc : key best < key j
        · rw [if_pos hc]
        · rw [if_neg hc]
          exact le_of_not_lt hc
      · exact hall j hj'

theorem argmaxIdx_lt (key : Nat → Int) (n : Nat) (h : 0 < n) : argmaxIdx key n < n := by
  cases n with
  | zero => exact absurd h (lt_irrefl 0)
  | succ m =>
    obtain ⟨hm, _, _⟩ := argmaxAux_spec key ((List.range m).map Nat.succ) 0
    show argmaxAux key ((List.range m).map Nat.succ) 0 < m + 1
    rcases hm with h0 | hmem
    · rw [h0]
      omega
    · obtain ⟨j, hj, hje⟩ := List.mem_map.mp hmem
      have := List.mem_range.mp hj
      omega

theorem argmaxIdx_key_le (key : Nat → Int) (n : Nat) :
    ∀ j < n, key j ≤ key (argmaxIdx key n) := by
  cases n with
  | zero => intro j hj; omega
  | succ m =>
    intro j hj
    obtain ⟨_, hk0, hall⟩ := argmaxAux_spec key ((List.range m).map Nat.succ) 0
    show key j ≤ key (argmaxAux key ((List.range m).map Nat.succ) 0)
    cases j with
    | zero => exact hk0
    | succ j' =>
      apply hall
      exact List.mem_map.mpr ⟨j', List.mem_range.mpr (by omega), rfl⟩

theorem sum_set_getD {l : List Nat} {i : Nat} (h : i < l.length) (v : Nat) :
    (l.set i v).sum + l.getD i 0 = l.sum + v := by
  rw [List.sum_set]
  have hd : l.drop i = l[i] :: l.drop (i + 1) := List.drop_eq_getElem_cons h
  have hsum : l.sum = (l.take i).sum + (l[i] + (l.drop (i + 1)).sum) := by
    conv_lhs => rw [← List.take_append_drop i l, List.sum_append, hd, List.sum_cons]
  have hg : l.getD i 0 = l[i] := by
    rw [List.getD_eq_getElem?_getD, List.getElem?_eq_getElem h]
    rfl
  rw [if_pos h]
  omega

theorem shrink_spec (minW : List Nat) :
    ∀ (fuel : Nat) (ws : List Nat),
      (shrink minW fuel ws).length = ws.length ∧
      ((shrink minW fuel ws).sum + fuel = ws.sum ∨
        ∀ i < ws.length, (shrink minW fuel ws).getD i 0 ≤ minW.getD i 0) := by
  intro fuel
  induction fuel with
  | zero =>
    intro ws
    exact ⟨rfl, Or.inl rfl⟩
  | succ f ih =>
    intro ws
    simp only [shrink]
    set i := argmaxIdx (fun j => ((ws.getD j 0 : Int) - (minW.getD j 0 : Int))) ws.length with hi
    by_cases hc : ws.getD i 0 ≤ minW.getD i 0
    · rw [if_pos hc]
      refine ⟨rfl, Or.inr ?_⟩
      intro j hj
      have hkey := argmaxIdx_key_le (fun j => ((ws.getD j 0 : Int) - (minW.getD j 0 : Int)))
        ws.length j hj
      rw [← hi] at hkey
      simp only at hkey
      omega
    · rw [if_neg hc]
      push_neg at hc
      have hiw : i < ws.length := by
        by_contra hni
        push_neg at hni
        have h0 : ws.getD i 0 = 0 := getD_of_length_le 0 hni
        omega
      obtain ⟨ihlen, ihsum⟩ := ih (ws.set i (ws.getD i 0 - 1))
      refine ⟨by rw [ihlen, List.length_set], ?_⟩
      rcases ihsum with hs | hall
      · left
        have hss := sum_set_getD hiw (ws.getD i 0 - 1)
        rw [List.length_set] at ihlen
        omega
      · right
        intro j hj
        have hj' : j < (ws.set i (ws.getD i 0 - 1)).length := by
          rw [List.length_set]
          exact hj
        exact hall j hj'

theorem pyTake_length (s : String) (k : Nat) : (pyTake s k).length = min k s.length := by
  show (s.data.take k).length = min k s.length
  exact List.length_take k s.data

theorem truncate_cell_length_le (t : String) (w : Nat) :
    (truncate_cell t w).length ≤ w + 2 := by
  unfold truncate_cell
  split
  · omega
  · split
    · rw [pyTake_length]
      omega
    · rw [String.length_append, pyTake_length]
      have h1 : ("\u00E2\u20AC\u00A6" : String).length = 3 := rfl
      omega

theorem sepLine_length (headers : List String) (ws : List Nat)
    (hlen : ws.length = headers.length) (hn : headers ≠ []) :
    (sepLine headers ws).length = ws.sum + 3 * (headers.length - 1) + 1 := by
  unfold sepLine
  rw [String.length_append]
  have hlz : headers.length ≠ 0 := fun h => hn (List.length_eq_zero.mp h)
  have hne : (List.range headers.length).map
      (fun i => String.mk (List.replicate (ws.getD i 0) '-')) ≠ [] := by
    simp [List.range_eq_nil, hlz]
  rw [joinSep_length _ _ hne, List.map_map]
  have hmap : (List.range headers.length).map
      (String.length ∘ fun i => String.mk (List.replicate (ws.getD i 0) '-')) =
      (List.range headers.length).map (fun i => ws.getD i 0) := by
    apply List.map_congr_left
    intro a _
    show (List.replicate (ws.getD a 0) '-').length = ws.getD a 0
    exact List.length_replicate _ _
  rw [hmap, ← hlen, range_map_getD]
  have h3 : ("-+-" : String).length = 3 := rfl
  have h1 : (" " : String).length = 1 := rfl
  rw [List.length_map, List.length_range, h3, h1, hlen]
  omega

theorem sum_map_const_two (n : Nat) :
    ((List.range n).map (fun _ => (2 : Nat))).sum = 2 * n := by
  induction n with
  | zero => rfl
  | succ m ih =>
    rw [List.range_succ, List.map_append, List.sum_append, ih]
    simp [List.sum_cons]
    omega

theorem dataLine_length_le (headers : List String) (ws : List Nat) (row : List String)
    (hlen : ws.length = headers.length) (hn : headers ≠ [])
    (hcell : ∀ i < headers.length, (row.getD i "").length ≤ ws.getD i 0 + 2) :
    (dataLine headers ws row).length ≤
      ws.sum + 2 * headers.length + 3 * (headers.length - 1) + 1 := by
  unfold dataLine
  rw [String.length_append]
  have hlz : headers.length ≠ 0 := fun h => hn (List.length_eq_zero.mp h)
  have hne : (List.range headers.length).map
      (fun i => fmt_cell (row.getD i "") (ws.getD i 0) (numeric_indices.contains i)) ≠ [] := by
    simp [List.range_eq_nil, hlz]
  rw [joinSep_length _ _ hne, List.map_map]
  have h3 : (" | " : String).length = 3 := rfl
  have h1 : (" " : String).length = 1 := rfl
  rw [List.length_map, List.length_range, h3, h1]
  have hbound : ((List.range headers.length).map
      (String.length ∘
        fun i => fmt_cell (row.getD i "") (ws.getD i 0) (numeric_indices.contains i))).sum ≤
      ((List.range headers.length).map (fun i => ws.getD i 0 + 2)).sum := by
    apply List.sum_le_sum
    intro a ha
    have halt : a < headers.length := List.mem_range.mp ha
    show (fmt_cell (row.getD a "") (ws.getD a 0) (numeric_indices.contains a)).length ≤
      ws.getD a 0 + 2
    rw [fmt_cell_length]
    have := hcell a halt
    omega
  have hsplit : ((List.range headers.length).map (fun i => ws.getD i 0 + 2)).sum =
      ws.sum + 2 * headers.length := by
    rw [List.sum_map_add, ← hlen, range_map_getD, sum_map_const_two, hlen]
  omega

theorem finalWidths_length (headers : List String) (rows : List (List String)) (term : Nat) :
    (finalWidths headers rows term).length = headers.length := by
  simp only [finalWidths]
  split
  · rw [(shrink_spec (min_widths headers) _ _).1]
    exact colWidths_length headers (prelimRows rows)
  · exact colWidths_length headers (prelimRows rows)

/-- C1 (amended): unless no column's final width is above its floor
`max(min(12, header length), 4)`, the separator line printed by the table
renderer has length at most the terminal width, and every data line has
length at most the terminal width plus two characters per column.  The two
relaxations are forced by the code: headers are never re-truncated, so the
header line can overflow while columns still have slack, and the
truncation marker appended to over-long cells is the three-character
mojibake sequence `U+00E2 U+20AC U+00A6`, so every re-truncated cell
overshoots its column width by exactly two characters. -/
theorem C1_renderer_line_width (headers : List String) (rows : List (List String))
    (term : Nat) :
    ((sepLine headers (finalWidths headers rows term)).length ≤ term ∨
      ∀ i < headers.length,
        (finalWidths headers rows term).getD i 0 ≤ (min_widths headers).getD i 0) ∧
    (∀ line ∈ (print_ascii_table headers rows term).drop 2,
      line.length ≤ term + 2 * headers.length ∨
      ∀ i < headers.length,
        (finalWidths headers rows term).getD i 0 ≤ (min_widths headers).getD i 0) := by
  by_cases hn : headers = []
  · constructor
    · right
      intro i hi
      rw [hn] at hi
      simp at hi
    · intro line hline
      right
      intro i hi
      rw [hn] at hi
      simp at hi
  have hlz : 0 < headers.length := List.length_pos.mpr hn
  have hlen0 : (colWidths headers (prelimRows rows)).length = headers.length :=
    colWidths_length headers (prelimRows rows)
  have hdrop : (print_ascii_table headers rows term).drop 2 =
      (finalRows headers rows term).map (dataLine headers (finalWidths headers rows term)) :=
    rfl
  have hmain : (finalWidths headers rows term).sum + 3 * (headers.length - 1) + 1 ≤ term ∨
      ∀ i < headers.length,
        (finalWidths headers rows term).getD i 0 ≤ (min_widths headers).getD i 0 := by
    by_cases hover : totalWidth (colWidths headers (prelimRows rows)) > (term : Int)
    · have hF : finalWidths headers rows term =
          shrink (min_widths headers)
            (totalWidth (colWidths headers (prelimRows rows)) - (term : Int)).toNat
            (colWidths headers (prelimRows rows)) := by
        simp only [finalWidths]
        rw [if_pos hover]
      obtain ⟨hslen, hscase⟩ :=
        shrink_spec (min_widths headers)
          (totalWidth (colWidths headers (prelimRows rows)) - (term : Int)).toNat
          (colWidths headers (prelimRows rows))
      rcases hscase with hsum | hfloor
      · left
        rw [hF]
        unfold totalWidth at hover hsum ⊢
        rw [hlen0] at hover
        omega
      · right
        intro i hi
        rw [hF]
        exact hfloor i (by rw [hlen0]; exact hi)
    · left
      have hF : finalWidths headers rows term = colWidths headers (prelimRows rows) := by
        simp only [finalWidths]
        rw [if_neg hover]
      rw [hF]
      unfold totalWidth at hover
      rw [hlen0] at hover
      omega
  have hcell : ∀ r ∈ finalRows headers rows term, ∀ i < headers.length,
      (r.getD i "").length ≤ (finalWidths headers rows term).getD i 0 + 2 := by
    intro r hr i hi
    by_cases hover : totalWidth (colWidths headers (prelimRows rows)) > (term : Int)
    · have hR : finalRows headers rows term =
          (prelimRows rows).map (fun r =>
            enumMap (fun i c =>
              truncate_cell c ((finalWidths headers rows term).getD i 0)) r) := by
        simp only [finalRows]
        rw [if_pos hover]
      rw [hR] at hr
      obtain ⟨r0, hr0, rfl⟩ := List.mem_map.mp hr
      by_cases hri : i < r0.length
      · rw [show enumMap (fun i c =>
            truncate_cell c ((finalWidths headers rows term).getD i 0)) r0 =
            enumMapFrom (fun i c =>
              truncate_cell c ((finalWidths headers rows term).getD i 0)) 0 r0 from rfl]
        rw [enumMapFrom_getD _ "" "" r0 0 i hri, Nat.zero_add]
        exact truncate_cell_length_le _ _
      · have hlr : (enumMap (fun i c =>
            truncate_cell c ((finalWidths headers rows term).getD i 0)) r0).length ≤ i := by
          rw [show enumMap (fun i c =>
              truncate_cell c ((finalWidths headers rows term).getD i 0)) r0 =
              enumMapFrom (fun i c =>
                truncate_cell c ((finalWidths headers rows term).getD i 0)) 0 r0 from rfl]
          rw [enumMapFrom_length]
          omega
        rw [getD_of_length_le "" hlr]
        exact Nat.zero_le _
    · have hR : finalRows headers rows term = prelimRows rows := by
        simp only [finalRows]
        rw [if_neg hover]
      have hF : finalWidths headers rows term = colWidths headers (prelimRows rows) := by
        simp only [finalWidths]
        rw [if_neg hover]
      rw [hR] at hr
      rw [hF]
      exact Nat.le_trans (cell_le_colWidths headers (prelimRows rows) r hr i hi)
        (Nat.le_add_right _ 2)
  constructor
  · rcases hmain with hle | hfloor
    · left
      rw [sepLine_length headers _ (finalWidths_length headers rows term) hn]
      exact hle
    · right
      exact hfloor
  · intro line hline
    rcases hmain with hle | hfloor
    · left
      rw [hdrop] at hline
      obtain ⟨r, hr, rfl⟩ := List.mem_map.mp hline
      have hd := dataLine_length_le headers (finalWidths headers rows term) r
        (finalWidths_length headers rows term) hn (hcell r hr)
      omega
    · right
      exact hfloor

/-- Concrete renderer input refuting claim C1 via the header line: a
20-character first header (floor 12) next to a short header whose column is
widened by a 5-character cell (floor 4), rendered at terminal width 22. -/
def c1Headers : List String := [String.mk (List.replicate 20 'a'), "bbbb"]

/-- The single data row of the first C1 counterexample input. -/
def c1Rows : List (List String) := [["", "ccccc"]]

/-- Concrete renderer input refuting claim C1 via a data line: one short
header over a 28-character cell, rendered at terminal width 20. -/
def c1bHeaders : List String := ["abcd"]

/-- The single data row of the second C1 counterexample input. -/
def c1bRows : List (List String) := [[String.mk (List.replicate 28 'x')]]

/-- C1 counterexample, refuting the claim as stated at two inputs.  First
input: the header line is 29 characters, exceeding the terminal width 22,
while the second column's final width (5) is above its floor (4) — headers
are never re-truncated.  Second input: the single column shrinks to 18
(above its floor 4), but the re-truncated cell is 17 characters plus the
3-character mojibake marker, so the data line is 21 characters, exceeding
the terminal width 20. -/
theorem C1_renderer_line_width_counterexample :
    (¬ ((∀ line ∈ print_ascii_table c1Headers c1Rows 22, line.length ≤ 22) ∨
        (∀ i < c1Headers.length,
          (finalWidths c1Headers c1Rows 22).getD i 0 ≤ (min_widths c1Headers).getD i 0))) ∧
    (¬ ((∀ line ∈ print_ascii_table c1bHeaders c1bRows 20, line.length ≤ 20) ∨
        (∀ i < c1bHeaders.length,
          (finalWidths c1bHeaders c1bRows 20).getD i 0 ≤ (min_widths c1bHeaders).getD i 0))) := by
  constructor <;> decide

/-- C1 witness: the amended theorem's data-line clause applied to the
concrete data line of the first counterexample input. -/
theorem C1_renderer_line_width_witness :
    (("              | ccccc" : String) ∈ (print_ascii_table c1Headers c1Rows 22).drop 2) ∧
    ((("              | ccccc" : String).length ≤ 22 + 2 * c1Headers.length) ∨
      ∀ i < c1Headers.length,
        (finalWidths c1Headers c1Rows 22).getD i 0 ≤ (min_widths c1Headers).getD i 0) :=
  ⟨by decide, (C1_renderer_line_width c1Headers c1Rows 22).2 _ (by decide)⟩

/-- C2 counterexample: the claim that a truncated cell's total length
equals the width is false at a concrete input — truncating `hello` to
width 4 yields `hel` plus the 3-character mojibake marker, length 6, not
4. -/
theorem C2_truncate_cell_counterexample :
    ¬ ((4 < ("hello" : String).length ∧ 2 ≤ 4) →
       (truncate_cell "hello" 4).length = 4) := by
  decide

/-- C2 (amended): for every string and width, `_truncate_cell` returns the
string unchanged when it fits; when it does not fit and the width is at
least 2 it returns the prefix of width minus one followed by the marker
literal — which in the source is the three-character mojibake sequence
`U+00E2 U+20AC U+00A6`, so the result's total length is the width plus 2,
not the width; when it does not fit and the width is at most 1 it returns
the hard-cut prefix with no marker. -/
theorem C2_truncate_cell (s : String) (w : Nat) :
    (s.length ≤ w → truncate_cell s w = s) ∧
    (w < s.length → 2 ≤ w →
      truncate_cell s w = pyTake s (w - 1) ++ "\u00E2\u20AC\u00A6" ∧
      (truncate_cell s w).length = w + 2) ∧
    (w < s.length → w ≤ 1 → truncate_cell s w = pyTake s w) := by
  refine ⟨?_, ?_, ?_⟩
  · intro h
    unfold truncate_cell
    rw [if_pos h]
  · intro h1 h2
    unfold truncate_cell
    rw [if_neg (by omega), if_neg (by omega)]
    refine ⟨rfl, ?_⟩
    rw [String.length_append, pyTake_length]
    have h3 : ("\u00E2\u20AC\u00A6" : String).length = 3 := rfl
    omega
  · intro h1 h2
    unfold truncate_cell
    rw [if_neg (by omega), if_pos h2]

/-- C2 witness: the three truncation regimes exercised on concrete inputs,
with the truncated result of length width plus 2. -/
theorem C2_truncate_cell_witness :
    (("hello" : String).length ≤ 9 ∧ truncate_cell "hello" 9 = "hello") ∧
    ((4 < ("hello" : String).length ∧ 2 ≤ 4) ∧
      truncate_cell "hello" 4 = pyTake "hello" 3 ++ "\u00E2\u20AC\u00A6" ∧
      (truncate_cell "hello" 4).length = 4 + 2) ∧
    ((1 < ("hello" : String).length ∧ 1 ≤ 1) ∧ truncate_cell "hello" 1 = pyTake "hello" 1) :=
  ⟨⟨by decide, (C2_truncate_cell "hello" 9).1 (by decide)⟩,
   ⟨⟨by decide, by decide⟩, (C2_truncate_cell "hello" 4).2.1 (by decide) (by decide)⟩,
   ⟨⟨by decide, by decide⟩, (C2_truncate_cell "hello" 1).2.2 (by decide) (by decide)⟩⟩

/-- C9: output-mode selection — the CSV flag forces CSV, the table flag
(when CSV does not force otherwise) forces the table, with no flags CSV is
chosen exactly when standard output is not an interactive terminal, and the
table is ever chosen only when forced by the table flag or when output is
interactive with no flag set. -/
theorem C9_output_mode :
    (∀ t i, should_output_csv true t i = true) ∧
    (∀ i, should_output_csv false true i = false) ∧
    (∀ i, should_output_csv false false i = !i) ∧
    (∀ c t i, should_output_csv c t i = false →
      (t = true ∧ c = false) ∨ (i = true ∧ c = false ∧ t = false)) := by
  refine ⟨?_, ?_, ?_, ?_⟩ <;> decide

/-- C9 witness: the conditional clause applied at a concrete flag
combination (table forced, non-interactive output). -/
theorem C9_output_mode_witness :
    should_output_csv false true false = false ∧
    ((true = true ∧ false = false) ∨ (false = true ∧ false = false ∧ true = false)) :=
  ⟨by decide, C9_output_mode.2.2.2 false true false (by decide)⟩

/-- C10: when both the force-CSV and force-table flags are set, CSV wins
for every interactivity state, because the CSV flag is tested first. -/
theorem C10_both_flags_csv_wins : ∀ i : Bool, should_output_csv true true i = true := by
  decide

/-- Field access in an output row by column position. -/
def rowField (r : List String) (i : Nat) : String := r.getD i ""

theorem getD_append_right {α : Type} (l1 l2 : List α) (d : α) (n : Nat)
    (h : l1.length ≤ n) : (l1 ++ l2).getD n d = l2.getD (n - l1.length) d := by
  rw [List.getD_eq_getElem?_getD, List.getD_eq_getElem?_getD,
    List.getElem?_append_right h]

theorem getD_append_left {α : Type} (l1 l2 : List α) (d : α) (n : Nat)
    (h : n < l1.length) : (l1 ++ l2).getD n d = l1.getD n d := by
  rw [List.getD_eq_getElem?_getD, List.getD_eq_getElem?_getD,
    List.getElem?_append, if_pos h]

theorem baseRow_length (a : String) (e : AuditLogEntry) : (baseRow a e).length = 9 := rfl

theorem sellCols_length (pl : Nat → Option Agg) (e : AuditLogEntry) :
    (sellCols pl e).length = 4 := by
  unfold sellCols
  split
  · split
    · split <;> rfl
    · rfl
  · rfl

theorem incomeCols_length (e : AuditLogEntry) : (incomeCols e).length = 2 := by
  unfold incomeCols
  split
  · split <;> rfl
  · rfl

theorem counterCols_length (idx : Nat → TrPart → Option AuditLogEntry) (e : AuditLogEntry) :
    (counterCols idx e).length = 4 := by
  unfold counterCols
  split
  · rfl
  · split
    · rfl
    · split <;> rfl

theorem rowField_sell (pl : Nat → Option Agg) (idx : Nat → TrPart → Option AuditLogEntry)
    (a : String) (e : AuditLogEntry) (j : Nat) (hj : j < 4) :
    rowField (buildRow pl idx a e) (9 + j) = (sellCols pl e).getD j "" := by
  unfold rowField buildRow
  rw [List.append_assoc, List.append_assoc, List.append_assoc]
  rw [getD_append_right (baseRow a e) _ "" (9 + j) (by rw [baseRow_length]; omega)]
  rw [baseRow_length, Nat.add_sub_cancel_left]
  rw [getD_append_left _ _ "" j (by rw [sellCols_length]; omega)]

theorem rowField_income (pl : Nat → Option Agg) (idx : Nat → TrPart → Option AuditLogEntry)
    (a : String) (e : AuditLogEntry) (j : Nat) (hj : j < 2) :
    rowField (buildRow pl idx a e) (13 + j) = (incomeCols e).getD j "" := by
  unfold rowField buildRow
  rw [List.append_assoc, List.append_assoc, List.append_assoc]
  rw [getD_append_right (baseRow a e) _ "" (13 + j) (by rw [baseRow_length]; omega)]
  rw [baseRow_length]
  rw [getD_append_right (sellCols pl e) _ "" (13 + j - 9) (by rw [sellCols_length]; omega)]
  rw [sellCols_length]
  have h1 : 13 + j - 9 - 4 = j := by omega
  rw [h1]
  rw [getD_append_left _ _ "" j (by rw [incomeCols_length]; omega)]

theorem rowField_counter (pl : Nat → Option Agg) (idx : Nat → TrPart → Option AuditLogEntry)
    (a : String) (e : AuditLogEntry) (j : Nat) (hj : j < 4) :
    rowField (buildRow pl idx a e) (15 + j) = (counterCols idx e).getD j "" := by
  unfold rowField buildRow
  rw [List.append_assoc, List.append_assoc, List.append_assoc]
  rw [getD_append_right (baseRow a e) _ "" (15 + j) (by rw [baseRow_length]; omega)]
  rw [baseRow_length]
  rw [getD_append_right (sellCols pl e) _ "" (15 + j - 9) (by rw [sellCols_length]; omega)]
  rw [sellCols_length]
  rw [getD_append_right (incomeCols e) _ "" (15 + j - 9 - 4) (by rw [incomeCols_length]; omega)]
  rw [incomeCols_length]
  have h1 : 15 + j - 9 - 4 - 2 = j := by omega
  rw [h1]
  rw [getD_append_left _ _ "" j (by rw [counterCols_length]; omega)]

theorem fmt_val_ne_empty_iff (o : Option Dec) : fmt_val o ≠ "" ↔ o.isSome := by
  cases o with
  | none => simp [fmt_val]
  | some d => simp [fmt_val_some_ne_empty d]

theorem fmt_qty_ne_empty_iff (o : Option Dec) : fmt_qty o ≠ "" ↔ o.isSome := by
  cases o with
  | none => simp [fmt_qty]
  | some d => simp [fmt_qty_some_ne_empty d]

/-- C7: the four disposal P/L columns of an output row are non-empty
exactly when the entry is the DISPOSE (SELL) leg and its transaction key
has a matching disposal aggregate; for every other entry all four disposal
columns are the empty string. -/
theorem C7_disposal_columns (pl : Nat → Option Agg) (idx : Nat → TrPart → Option AuditLogEntry)
    (a : String) (e : AuditLogEntry) :
    ((e.tr_part.name = "SELL" ∧ ∃ k, e.t_record.tid.head? = some k ∧ (pl k).isSome) →
      ∀ j < 4, rowField (buildRow pl idx a e) (9 + j) ≠ "") ∧
    (¬(e.tr_part.name = "SELL" ∧ ∃ k, e.t_record.tid.head? = some k ∧ (pl k).isSome) →
      ∀ j < 4, rowField (buildRow pl idx a e) (9 + j) = "") := by
  constructor
  · rintro ⟨hname, k, hk, hsome⟩ j hj
    rw [rowField_sell pl idx a e j hj]
    unfold sellCols
    rw [if_pos hname]
    cases htid : e.t_record.tid with
    | nil =>
      rw [htid] at hk
      exact absurd hk (by simp)
    | cons k0 rest =>
      rw [htid] at hk
      have hk0 : k0 = k := by simpa using hk
      subst hk0
      dsimp only
      obtain ⟨agg, hagg⟩ := Option.isSome_iff_exists.mp hsome
      rw [hagg]
      interval_cases j
      · exact fmt_val_some_ne_empty _
      · exact fmt_val_some_ne_empty _
      · exact fmt_val_some_ne_empty _
      · exact fmt_val_some_ne_empty _
  · intro hneg j hj
    rw [rowField_sell pl idx a e j hj]
    unfold sellCols
    by_cases hname : e.tr_part.name = "SELL"
    · rw [if_pos hname]
      cases htid : e.t_record.tid with
      | nil => interval_cases j <;> rfl
      | cons k0 rest =>
        dsimp only
        cases hpl : pl k0 with
        | none => interval_cases j <;> rfl
        | some agg =>
          exact absurd ⟨hname, k0, by rw [htid]; rfl, by rw [hpl]; rfl⟩ hneg
    · rw [if_neg hname]
      interval_cases j <;> rfl

/-- Concrete disposal aggregate mapping for the C7 witness. -/
def c7pl : Nat → Option Agg :=
  fun k => if k = 5 then some ⟨⟨100, 0⟩, ⟨50, 0⟩, ⟨1, 0⟩, ⟨49, 0⟩⟩ else none

/-- Concrete empty transaction-entry index for witnesses. -/
def emptyIdx : Nat → TrPart → Option AuditLogEntry := fun _ _ => none

/-- Concrete SELL audit entry for the C7 witness. -/
def c7e : AuditLogEntry :=
  ⟨⟨TrType.other "Trade", none, some ⟨"BTC", ⟨1, 0⟩, none, none⟩, [5], "t", none⟩,
    TrPart.SELL, "w", some ⟨-1, 0⟩, none, some ⟨0, 0⟩, some ⟨0, 0⟩⟩

/-- C7 witness: the positive branch at a concrete SELL entry whose key 5
has an aggregate, and the negative branch at the same entry with an empty
aggregate mapping. -/
theorem C7_disposal_columns_witness :
    (c7e.tr_part.name = "SELL" ∧ (c7pl 5).isSome ∧ 0 < 4 ∧
      rowField (buildRow c7pl emptyIdx "BTC" c7e) 9 ≠ "") ∧
    (rowField (buildRow (fun _ => none) emptyIdx "BTC" c7e) 9 = "") :=
  ⟨⟨rfl, by decide, by decide,
    (C7_disposal_columns c7pl emptyIdx "BTC" c7e).1 ⟨rfl, 5, rfl, by decide⟩ 0 (by decide)⟩,
   (C7_disposal_columns (fun _ => none) emptyIdx "BTC" c7e).2
     (by rintro ⟨_, k, _, hs⟩; simp at hs) 0 (by decide)⟩

/-- C4 (amended): when the entry is the ACQUIRE (BUY) leg of an income-type
record that has an acquisition leg, the two income columns carry the leg's
formatted cost and fee value, each column being non-empty exactly when its
own datum is present (the two are independent); in every other case both
income columns are the empty string. -/
theorem C4_income_columns (pl : Nat → Option Agg) (idx : Nat → TrPart → Option AuditLogEntry)
    (a : String) (e : AuditLogEntry) :
    (∀ b : Leg, e.tr_part.name = "BUY" → INCOME_TYPES.contains e.t_record.t_type = true →
      e.t_record.buy = some b →
      rowField (buildRow pl idx a e) 13 = fmt_val b.cost ∧
      rowField (buildRow pl idx a e) 14 = fmt_val b.fee_value ∧
      (rowField (buildRow pl idx a e) 13 ≠ "" ↔ b.cost.isSome) ∧
      (rowField (buildRow pl idx a e) 14 ≠ "" ↔ b.fee_value.isSome)) ∧
    (¬(e.tr_part.name = "BUY" ∧ INCOME_TYPES.contains e.t_record.t_type = true ∧
        e.t_record.buy.isSome) →
      rowField (buildRow pl idx a e) 13 = "" ∧ rowField (buildRow pl idx a e) 14 = "") := by
  have h0 : rowField (buildRow pl idx a e) 13 = (incomeCols e).getD 0 "" :=
    rowField_income pl idx a e 0 (by omega)
  have h1 : rowField (buildRow pl idx a e) 14 = (incomeCols e).getD 1 "" :=
    rowField_income pl idx a e 1 (by omega)
  constructor
  · intro b hname hinc hbuy
    rw [h0, h1]
    unfold incomeCols
    rw [if_pos (show e.tr_part.name = "BUY" ∧
      INCOME_TYPES.contains e.t_record.t_type = true from ⟨hname, hinc⟩)]
    rw [hbuy]
    exact ⟨rfl, rfl, fmt_val_ne_empty_iff b.cost, fmt_val_ne_empty_iff b.fee_value⟩
  · intro hneg
    rw [h0, h1]
    unfold incomeCols
    by_cases hname : e.tr_part.name = "BUY"
    · by_cases hinc : INCOME_TYPES.contains e.t_record.t_type = true
      · rw [if_pos (show e.tr_part.name = "BUY" ∧
          INCOME_TYPES.contains e.t_record.t_type = true from ⟨hname, hinc⟩)]
        cases hbuy : e.t_record.buy with
        | none => exact ⟨rfl, rfl⟩
        | some b => exact absurd ⟨hname, hinc, by rw [hbuy]; rfl⟩ hneg
      · rw [if_neg (fun hc => hinc hc.2)]
        exact ⟨rfl, rfl⟩
    · rw [if_neg (fun hc => hname hc.1)]
      exact ⟨rfl, rfl⟩

/-- Acquisition leg with cost data but no fee value, for the C4
counterexample. -/
def c4leg : Leg := ⟨"BTC", ⟨15, 1⟩, some ⟨100, 0⟩, none⟩

/-- Mining (income-type) transaction record owning `c4leg`. -/
def c4tr : TransactionRecord := ⟨TrType.mining, some c4leg, none, [3], "t", none⟩

/-- BUY audit entry of the mining record. -/
def c4e : AuditLogEntry :=
  ⟨c4tr, TrPart.BUY, "w", some ⟨15, 1⟩, none, some ⟨15, 1⟩, some ⟨15, 1⟩⟩

/-- FEE audit entry used for the negative branch of the C4 witness. -/
def c4eFee : AuditLogEntry :=
  ⟨c4tr, TrPart.FEE, "w", none, some ⟨1, 2⟩, some ⟨15, 1⟩, some ⟨15, 1⟩⟩

/-- C4 counterexample: a BUY entry of an income-type record whose
acquisition leg has cost data but no fee value — the claim demands both
income columns non-empty, yet `income_fees_value_ccy` is empty because the
two columns are populated independently from `cost` and `fee_value`. -/
theorem C4_income_columns_counterexample :
    ¬ ((c4e.tr_part.name = "BUY" ∧ INCOME_TYPES.contains c4e.t_record.t_type = true ∧
        c4e.t_record.buy = some c4leg ∧ c4leg.cost.isSome) →
      (rowField (buildRow (fun _ => none) emptyIdx "BTC" c4e) 13 ≠ "" ∧
       rowField (buildRow (fun _ => none) emptyIdx "BTC" c4e) 14 ≠ "")) := by
  decide

/-- C4 witness: the amended theorem applied to the concrete mining BUY
entry (positive branch) and to a FEE entry (negative branch). -/
theorem C4_income_columns_witness :
    (c4e.tr_part.name = "BUY" ∧ INCOME_TYPES.contains c4e.t_record.t_type = true ∧
      c4e.t_record.buy = some c4leg ∧
      rowField (buildRow (fun _ => none) emptyIdx "BTC" c4e) 13 = fmt_val c4leg.cost) ∧
    (rowField (buildRow (fun _ => none) emptyIdx "BTC" c4eFee) 13 = "" ∧
     rowField (buildRow (fun _ => none) emptyIdx "BTC" c4eFee) 14 = "") :=
  ⟨⟨rfl, by decide, rfl,
    ((C4_income_columns (fun _ => none) emptyIdx "BTC" c4e).1 c4leg rfl (by decide) rfl).1⟩,
   (C4_income_columns (fun _ => none) emptyIdx "BTC" c4eFee).2
     (fun hc => by exact absurd hc.1 (by decide))⟩

/-- C3 (amended): the counter columns of an output row split into two
groups with different population conditions.  For a FEE entry, or an entry
whose record has no truthy `tid`, all four counter columns are empty.
Otherwise `counter_asset` and `counter_change_qty` are non-empty exactly
when the OPPOSITE LEG EXISTS ON THE TRANSACTION RECORD itself (sell leg for
ACQUIRE, buy leg for DISPOSE; the asset column additionally needs a
non-empty asset symbol), while the two counter balance columns are
non-empty exactly when the opposite entry exists in the TRANSACTION ENTRY
INDEX with the corresponding balance datum present — membership in the
index governs only the balance columns, not the asset/quantity columns. -/
theorem C3_counter_columns (pl : Nat → Option Agg) (idx : Nat → TrPart → Option AuditLogEntry)
    (a : String) (e : AuditLogEntry) :
    (e.tr_part.name = "FEE" → ∀ j < 4, rowField (buildRow pl idx a e) (15 + j) = "") ∧
    (e.t_record.tid = [] → ∀ j < 4, rowField (buildRow pl idx a e) (15 + j) = "") ∧
    (∀ k rest, e.t_record.tid = k :: rest →
      ((rowField (buildRow pl idx a e) 15 ≠ "") ↔
        ((e.tr_part.name = "BUY" ∧ ∃ s, e.t_record.sell = some s ∧ s.asset ≠ "") ∨
         (e.tr_part.name = "SELL" ∧ ∃ b, e.t_record.buy = some b ∧ b.asset ≠ ""))) ∧
      ((rowField (buildRow pl idx a e) 16 ≠ "") ↔
        ((e.tr_part.name = "BUY" ∧ e.t_record.sell.isSome) ∨
         (e.tr_part.name = "SELL" ∧ e.t_record.buy.isSome))) ∧
      ((rowField (buildRow pl idx a e) 17 ≠ "") ↔
        ((e.tr_part.name = "BUY" ∧ ∃ e2, idx k TrPart.SELL = some e2 ∧ e2.balance.isSome) ∨
         (e.tr_part.name = "SELL" ∧ ∃ e2, idx k TrPart.BUY = some e2 ∧ e2.balance.isSome))) ∧
      ((rowField (buildRow pl idx a e) 18 ≠ "") ↔
        ((e.tr_part.name = "BUY" ∧ ∃ e2, idx k TrPart.SELL = some e2 ∧ e2.total.isSome) ∨
         (e.tr_part.name = "SELL" ∧ ∃ e2, idx k TrPart.BUY = some e2 ∧ e2.total.isSome)))) := by
  refine ⟨?_, ?_, ?_⟩
  · intro hfee j hj
    rw [rowField_counter pl idx a e j hj]
    unfold counterCols
    cases htid : e.t_record.tid with
    | nil => interval_cases j <;> rfl
    | cons k rest =>
      dsimp only
      rw [hfee, if_neg (by decide), if_neg (by decide)]
      interval_cases j <;> rfl
  · intro htid j hj
    rw [rowField_counter pl idx a e j hj]
    unfold counterCols
    rw [htid]
    interval_cases j <;> rfl
  · intro k rest htid
    have h15 : rowField (buildRow pl idx a e) 15 = (counterCols idx e).getD 0 "" :=
      rowField_counter pl idx a e 0 (by omega)
    have h16 : rowField (buildRow pl idx a e) 16 = (counterCols idx e).getD 1 "" :=
      rowField_counter pl idx a e 1 (by omega)
    have h17 : rowField (buildRow pl idx a e) 17 = (counterCols idx e).getD 2 "" :=
      rowField_counter pl idx a e 2 (by omega)
    have h18 : rowField (buildRow pl idx a e) 18 = (counterCols idx e).getD 3 "" :=
      rowField_counter pl idx a e 3 (by omega)
    rw [h15, h16, h17, h18]
    unfold counterCols
    rw [htid]
    dsimp only
    by_cases hb : e.tr_part.name = "BUY"
    · rw [if_pos hb]
      refine ⟨?_, ?_, ?_, ?_⟩
      · cases hsell : e.t_record.sell <;> simp [hb, hsell]
      · cases hsell : e.t_record.sell <;> simp [hb, hsell, fmt_qty_some_ne_empty]
      · cases hidx : idx k TrPart.SELL <;> simp [hb, hidx, fmt_qty_ne_empty_iff]
      · cases hidx : idx k TrPart.SELL <;> simp [hb, hidx, fmt_qty_ne_empty_iff]
    · rw [if_neg hb]
      by_cases hs : e.tr_part.name = "SELL"
      · rw [if_pos hs]
        refine ⟨?_, ?_, ?_, ?_⟩
        · cases hbuy : e.t_record.buy <;> simp [hb, hs, hbuy]
        · cases hbuy : e.t_record.buy <;> simp [hb, hs, hbuy, fmt_qty_some_ne_empty]
        · cases hidx : idx k TrPart.BUY <;> simp [hb, hs, hidx, fmt_qty_ne_empty_iff]
        · cases hidx : idx k TrPart.BUY <;> simp [hb, hs, hidx, fmt_qty_ne_empty_iff]
      · rw [if_neg hs]
        refine ⟨?_, ?_, ?_, ?_⟩ <;> simp [hb, hs]

/-- Trade record with a sell leg and key 7 whose SELL leg never appears in
the audit log, for the C3 counterexample. -/
def c3tr : TransactionRecord :=
  ⟨TrType.other "Trade", none, some ⟨"BTC", ⟨1, 0⟩, none, none⟩, [7], "t", none⟩

/-- The lone BUY audit entry of `c3tr`. -/
def c3e : AuditLogEntry :=
  ⟨c3tr, TrPart.BUY, "w", some ⟨1, 0⟩, none, some ⟨1, 0⟩, some ⟨1, 0⟩⟩

/-- An audit log containing only the BUY entry, so the transaction-entry
index has no SELL entry under key 7. -/
def c3log : List (String × List AuditLogEntry) := [("ETH", [c3e])]

/-- C3 counterexample: an ACQUIRE entry whose opposite (SELL) leg is absent
from the transaction-entry index still gets a populated `counter_asset`
(taken from the record's sell leg), refuting the claimed iff between
populated counter fields and index membership of the opposite leg. -/
theorem C3_counter_columns_counterexample :
    ¬ ((rowField (buildRow (fun _ => none) (tr_to_entries c3log) "ETH" c3e) 15 ≠ "") ↔
       ((c3e.tr_part.name = "BUY" ∨ c3e.tr_part.name = "SELL") ∧
        ((tr_to_entries c3log) 7 TrPart.SELL).isSome)) := by
  decide

/-- C3 witness: the FEE clause at a concrete FEE entry, and the
asset/quantity and balance iffs at the concrete ACQUIRE entry whose
opposite leg exists on the record but not in the index. -/
theorem C3_counter_columns_witness :
    (c4eFee.tr_part.name = "FEE" ∧ 0 < 4 ∧
      rowField (buildRow (fun _ => none) emptyIdx "BTC" c4eFee) 15 = "") ∧
    (c3e.t_record.tid = 7 :: [] ∧
      ((rowField (buildRow (fun _ => none) (tr_to_entries c3log) "ETH" c3e) 16 ≠ "") ↔
        ((c3e.tr_part.name = "BUY" ∧ c3e.t_record.sell.isSome) ∨
         (c3e.tr_part.name = "SELL" ∧ c3e.t_record.buy.isSome)))) :=
  ⟨⟨rfl, by decide,
    (C3_counter_columns (fun _ => none) emptyIdx "BTC" c4eFee).1 rfl 0 (by decide)⟩,
   ⟨rfl,
    ((C3_counter_columns (fun _ => none) (tr_to_entries c3log) "ETH" c3e).2.2 7 [] rfl).2.1⟩⟩

/-- C8 (amended): provided the transaction record carries a truthy `tid`,
an ACQUIRE row's counter asset is the record's disposal-leg asset and its
counter change quantity is the formatted negated disposal quantity; a
DISPOSE row's counter asset is the acquisition-leg asset with the formatted
acquisition quantity as stored; and in each case the counter balance
columns equal the opposite indexed entry's formatted post-event wallet and
total balances when that entry is present in the transaction-entry index.
Without a truthy `tid` the counter columns stay empty even when the
opposite leg exists. -/
theorem C8_counter_values (pl : Nat → Option Agg) (idx : Nat → TrPart → Option AuditLogEntry)
    (a : String) (e : AuditLogEntry) :
    (∀ k rest s, e.t_record.tid = k :: rest → e.tr_part.name = "BUY" →
      e.t_record.sell = some s →
      rowField (buildRow pl idx a e) 15 = s.asset ∧
      rowField (buildRow pl idx a e) 16 = fmt_qty (some s.quantity.neg)) ∧
    (∀ k rest b, e.t_record.tid = k :: rest → e.tr_part.name = "SELL" →
      e.t_record.buy = some b →
      rowField (buildRow pl idx a e) 15 = b.asset ∧
      rowField (buildRow pl idx a e) 16 = fmt_qty (some b.quantity)) ∧
    (∀ k rest e2, e.t_record.tid = k :: rest → e.tr_part.name = "BUY" →
      idx k TrPart.SELL = some e2 →
      rowField (buildRow pl idx a e) 17 = fmt_qty e2.balance ∧
      rowField (buildRow pl idx a e) 18 = fmt_qty e2.total) ∧
    (∀ k rest e2, e.t_record.tid = k :: rest → e.tr_part.name = "SELL" →
      idx k TrPart.BUY = some e2 →
      rowField (buildRow pl idx a e) 17 = fmt_qty e2.balance ∧
      rowField (buildRow pl idx a e) 18 = fmt_qty e2.total) := by
  have h15 : rowField (buildRow pl idx a e) 15 = (counterCols idx e).getD 0 "" :=
    rowField_counter pl idx a e 0 (by omega)
  have h16 : rowField (buildRow pl idx a e) 16 = (counterCols idx e).getD 1 "" :=
    rowField_counter pl idx a e 1 (by omega)
  have h17 : rowField (buildRow pl idx a e) 17 = (counterCols idx e).getD 2 "" :=
    rowField_counter pl idx a e 2 (by omega)
  have h18 : rowField (buildRow pl idx a e) 18 = (counterCols idx e).getD 3 "" :=
    rowField_counter pl idx a e 3 (by omega)
  refine ⟨?_, ?_, ?_, ?_⟩
  · intro k rest s htid hname hsell
    rw [h15, h16]
    unfold counterCols
    rw [htid]
    dsimp only
    rw [if_pos hname, hsell]
    exact ⟨rfl, rfl⟩
  · intro k rest b htid hname hbuy
    rw [h15, h16]
    unfold counterCols
    rw [htid]
    dsimp only
    rw [if_neg (by rw [hname]; decide), if_pos hname, hbuy]
    exact ⟨rfl, rfl⟩
  · intro k rest e2 htid hname hidx
    rw [h17, h18]
    unfold counterCols
    rw [htid]
    dsimp only
    rw [if_pos hname, hidx]
    exact ⟨rfl, rfl⟩
  · intro k rest e2 htid hname hidx
    rw [h17, h18]
    unfold counterCols
    rw [htid]
    dsimp only
    rw [if_neg (by rw [hname]; decide), if_pos hname, hidx]
    exact ⟨rfl, rfl⟩

/-- Trade record with both legs but a falsy (empty) `tid`, for the C8
counterexample. -/
def c8tr : TransactionRecord :=
  ⟨TrType.other "Trade", some ⟨"ETH", ⟨15, 1⟩, none, none⟩,
    some ⟨"BTC", ⟨1, 2⟩, none, none⟩, [], "t", none⟩

/-- BUY audit entry of the `tid`-less record. -/
def c8e : AuditLogEntry :=
  ⟨c8tr, TrPart.BUY, "w", some ⟨15, 1⟩, none, some ⟨15, 1⟩, some ⟨15, 1⟩⟩

/-- C8 counterexample: an ACQUIRE entry whose record has a disposal leg but
no truthy `tid` — the claim says `counter_asset` equals the disposal leg's
asset, but the script skips the whole counter block when `tid` is falsy and
leaves the column empty. -/
theorem C8_counter_values_counterexample :
    ¬ ((c8e.tr_part.name = "BUY" ∧ c8e.t_record.sell = some ⟨"BTC", ⟨1, 2⟩, none, none⟩) →
       rowField (buildRow (fun _ => none) emptyIdx "ETH" c8e) 15 = "BTC") := by
  decide

/-- Trade record (ACQUIRE 1.5 ETH, DISPOSE 0.01 BTC) with key 9, both of
whose legs appear in the audit log, for the C8 witness. -/
def c8trFull : TransactionRecord :=
  ⟨TrType.other "Trade", some ⟨"ETH", ⟨15, 1⟩, none, none⟩,
    some ⟨"BTC", ⟨1, 2⟩, none, none⟩, [9], "t", none⟩

/-- The BUY-leg audit entry of `c8trFull`. -/
def c8eBuy : AuditLogEntry :=
  ⟨c8trFull, TrPart.BUY, "w", some ⟨15, 1⟩, none, some ⟨15, 1⟩, some ⟨15, 1⟩⟩

/-- The SELL-leg audit entry of `c8trFull`. -/
def c8eSell : AuditLogEntry :=
  ⟨c8trFull, TrPart.SELL, "w", some ⟨-1, 2⟩, none, some ⟨5, 2⟩, some ⟨5, 2⟩⟩

/-- Two-asset audit log holding both legs of `c8trFull`. -/
def c8log : List (String × List AuditLogEntry) := [("BTC", [c8eSell]), ("ETH", [c8eBuy])]

/-- C8 witness: the amended theorem applied to the concrete trade — the
ACQUIRE row shows counter asset BTC with the negated disposal quantity
(rendered `-0.01`), the DISPOSE row shows counter asset ETH with the stored
acquisition quantity (rendered `1.5`), and the ACQUIRE row's counter
balances come from the indexed SELL entry. -/
theorem C8_counter_values_witness :
    (c8eBuy.t_record.tid = 9 :: [] ∧ c8eBuy.tr_part.name = "BUY" ∧
      rowField (buildRow (fun _ => none) (tr_to_entries c8log) "ETH" c8eBuy) 15 = "BTC" ∧
      rowField (buildRow (fun _ => none) (tr_to_entries c8log) "ETH" c8eBuy) 16 = "-0.01") ∧
    (rowField (buildRow (fun _ => none) (tr_to_entries c8log) "BTC" c8eSell) 15 = "ETH" ∧
     rowField (buildRow (fun _ => none) (tr_to_entries c8log) "BTC" c8eSell) 16 = "1.5") ∧
    (tr_to_entries c8log 9 TrPart.SELL = some c8eSell ∧
      rowField (buildRow (fun _ => none) (tr_to_entries c8log) "ETH" c8eBuy) 17 =
        fmt_qty c8eSell.balance) :=
  ⟨⟨rfl, rfl,
    by
      have h := (C8_counter_values (fun _ => none) (tr_to_entries c8log) "ETH" c8eBuy).1
        9 [] ⟨"BTC", ⟨1, 2⟩, none, none⟩ rfl rfl rfl
      exact ⟨h.1, by rw [h.2]; decide⟩⟩,
   by
      have h := (C8_counter_values (fun _ => none) (tr_to_entries c8log) "BTC" c8eSell).2.1
        9 [] ⟨"ETH", ⟨15, 1⟩, none, none⟩ rfl rfl rfl
      exact ⟨h.1, by rw [h.2]; decide⟩,
   by
      have h := (C8_counter_values (fun _ => none) (tr_to_entries c8log) "ETH" c8eBuy).2.2.1
        9 [] c8eSell rfl rfl (by decide)
      exact ⟨by decide, h.1⟩⟩

/-- The recognized tax events flattened into iteration order (sorted years,
then each year's events in stored order). -/
def flatEvents (taxEvents : List (Nat × List TaxEventCG)) (recognized : Nat → Bool) :
    List TaxEventCG :=
  (recognizedEvents taxEvents recognized).flatMap Prod.snd

/-- The recognized tax events whose originating transaction record resolves
to the key `k`. -/
def eventsFor (taxEvents : List (Nat × List TaxEventCG)) (recognized : Nat → Bool)
    (k : Nat) : List TaxEventCG :=
  (flatEvents taxEvents recognized).filter (fun te => decide (eventKey te = some k))

/-- Exact sum of one money amount over a list of tax events, starting from
the decimal zero. -/
def sumDec (f : TaxEventCG → Dec) (l : List TaxEventCG) : Dec :=
  l.foldl (fun acc te => acc.add (f te)) Dec.zero

theorem Agg.ext_components (a b : Agg) (h1 : a.proceeds = b.proceeds) (h2 : a.cost = b.cost)
    (h3 : a.fees = b.fees) (h4 : a.gain = b.gain) : a = b := by
  cases a
  cases b
  simp only at h1 h2 h3 h4
  rw [h1, h2, h3, h4]

theorem foldl_pairs (L : List (Nat × List TaxEventCG)) :
    ∀ init : Nat → Option Agg,
      L.foldl (fun acc p => p.2.foldl plStep acc) init =
        (L.flatMap Prod.snd).foldl plStep init := by
  induction L with
  | nil => intro init; rfl
  | cons p rest ih =>
    intro init
    show rest.foldl _ (p.2.foldl plStep init) = ((p.2 ++ rest.flatMap Prod.snd).foldl plStep init)
    rw [List.foldl_append, ih]

theorem plStep_hit (acc : Nat → Option Agg) (te : TaxEventCG) (k : Nat)
    (hke : eventKey te = some k) :
    (plStep acc te) k = some (((acc k).getD Agg.zero).addEvent te) := by
  unfold plStep
  rw [hke]
  dsimp only
  rw [if_pos rfl]

theorem plStep_miss (acc : Nat → Option Agg) (te : TaxEventCG) (k : Nat)
    (hke : eventKey te ≠ some k) :
    (plStep acc te) k = acc k := by
  unfold plStep
  cases hek : eventKey te with
  | none => rfl
  | some k2 =>
    dsimp only
    rw [if_neg (fun h => hke (by rw [hek, h]))]

theorem plFold_char (k : Nat) :
    ∀ (l : List TaxEventCG) (acc : Nat → Option Agg),
      (l.foldl plStep acc) k =
        (l.filter (fun te => decide (eventKey te = some k))).foldl
          (fun oa te => some ((oa.getD Agg.zero).addEvent te)) (acc k) := by
  intro l
  induction l with
  | nil => intro acc; rfl
  | cons te rest ih =>
    intro acc
    show (rest.foldl plStep (plStep acc te)) k = _
    rw [ih (plStep acc te)]
    by_cases hke : eventKey te = some k
    · rw [List.filter_cons_of_pos (by simp [hke])]
      rw [plStep_hit acc te k hke]
      rfl
    · rw [List.filter_cons_of_neg (by simp [hke])]
      rw [plStep_miss acc te k hke]

theorem optFold_some (l : List TaxEventCG) :
    ∀ a0 : Agg,
      l.foldl (fun oa te => some ((oa.getD Agg.zero).addEvent te)) (some a0) =
        some (l.foldl Agg.addEvent a0) := by
  induction l with
  | nil => intro a0; rfl
  | cons te rest ih =>
    intro a0
    show rest.foldl _ (some (a0.addEvent te)) = _
    rw [ih (a0.addEvent te)]
    rfl

theorem foldA_proj (f : Agg → Dec) (g : TaxEventCG → Dec)
    (hfg : ∀ (a : Agg) (te : TaxEventCG), f (a.addEvent te) = (f a).add (g te)) :
    ∀ (l : List TaxEventCG) (a : Agg),
      f (l.foldl Agg.addEvent a) = l.foldl (fun d te => d.add (g te)) (f a) := by
  intro l
  induction l with
  | nil => intro a; rfl
  | cons te rest ih =>
    intro a
    show f (rest.foldl Agg.addEvent (a.addEvent te)) = _
    rw [ih (a.addEvent te), hfg]
    rfl

/-- C5: for every transaction key, the disposal aggregate mapping holds an
entry exactly when at least one recognized capital-gains event resolves to
that key, and that entry's four amounts are the exact decimal sums of the
corresponding amounts over all such events (each event counted once);
events with no originating record or no truthy transaction id are skipped
and contribute nowhere. -/
theorem C5_disposal_aggregates (taxEvents : List (Nat × List TaxEventCG))
    (recognized : Nat → Bool) (k : Nat) :
    tr_to_pl taxEvents recognized k =
      (if eventsFor taxEvents recognized k = [] then none
       else some ⟨sumDec (fun te => te.proceeds) (eventsFor taxEvents recognized k),
                  sumDec (fun te => te.cost) (eventsFor taxEvents recognized k),
                  sumDec (fun te => te.fees) (eventsFor taxEvents recognized k),
                  sumDec (fun te => te.gain) (eventsFor taxEvents recognized k)⟩) := by
  unfold tr_to_pl
  rw [foldl_pairs]
  rw [plFold_char k]
  show (((recognizedEvents taxEvents recognized).flatMap Prod.snd).filter
      (fun te => decide (eventKey te = some k))).foldl
      (fun oa te => some ((oa.getD Agg.zero).addEvent te)) none = _
  have hev : ((recognizedEvents taxEvents recognized).flatMap Prod.snd).filter
      (fun te => decide (eventKey te = some k)) = eventsFor taxEvents recognized k := rfl
  rw [hev]
  cases hcase : eventsFor taxEvents recognized k with
  | nil =>
    rw [if_pos rfl]
    rfl
  | cons te rest =>
    rw [if_neg (by simp)]
    show rest.foldl (fun oa te => some ((oa.getD Agg.zero).addEvent te))
        (some (Agg.zero.addEvent te)) = _
    rw [optFold_some rest (Agg.zero.addEvent te)]
    apply congrArg some
    apply Agg.ext_components
    · rw [foldA_proj (fun a => a.proceeds) (fun te => te.proceeds) (fun _ _ => rfl)]
      rfl
    · rw [foldA_proj (fun a => a.cost) (fun te => te.cost) (fun _ _ => rfl)]
      rfl
    · rw [foldA_proj (fun a => a.fees) (fun te => te.fees) (fun _ _ => rfl)]
      rfl
    · rw [foldA_proj (fun a => a.gain) (fun te => te.gain) (fun _ _ => rfl)]
      rfl

theorem foldl_append_one {α β γ : Type} (f : α → β → γ) (a : α) :
    ∀ (es : List β) (acc : List γ),
      es.foldl (fun acc2 e => acc2 ++ [f a e]) acc = acc ++ es.map (f a) := by
  intro es
  induction es with
  | nil =>
    intro acc
    rw [List.map_nil, List.append_nil]
    rfl
  | cons e rest ih =>
    intro acc
    show rest.foldl _ (acc ++ [f a e]) = _
    rw [ih (acc ++ [f a e]), List.map_cons, List.append_assoc]
    rfl

theorem foldl_rows {α β γ : Type} (f : α → β → γ) (g : α → List β) :
    ∀ (l : List α) (acc : List γ),
      l.foldl (fun acc2 a => (g a).foldl (fun acc3 e => acc3 ++ [f a e]) acc2) acc =
        acc ++ l.flatMap (fun a => (g a).map (f a)) := by
  intro l
  induction l with
  | nil =>
    intro acc
    rw [List.flatMap_nil, List.append_nil]
    rfl
  | cons a rest ih =>
    intro acc
    show rest.foldl _ ((g a).foldl (fun acc3 e => acc3 ++ [f a e]) acc) = _
    rw [foldl_append_one f a (g a) acc, ih, List.flatMap_cons, List.append_assoc]

theorem assetEntries_head (p : String × List AuditLogEntry)
    (rest : List (String × List AuditLogEntry)) :
    assetEntries (p :: rest) p.1 = p.2 := by
  unfold assetEntries
  cases p with
  | mk key v =>
    simp [List.lookup]

theorem assetEntries_tail (p : String × List AuditLogEntry)
    (rest : List (String × List AuditLogEntry)) (a : String) (ha : a ≠ p.1) :
    assetEntries (p :: rest) a = assetEntries rest a := by
  unfold assetEntries
  cases p with
  | mk key v =>
    simp only at ha
    show (List.lookup a ((key, v) :: rest)).getD [] = (List.lookup a rest).getD []
    have hbeq : (a == key) = false := beq_eq_false_iff_ne.mpr ha
    simp [List.lookup, hbeq]

theorem entry_counts_of_nodup :
    ∀ log : List (String × List AuditLogEntry), (log.map Prod.fst).Nodup →
      (log.map Prod.fst).map (fun a => (assetEntries log a).length) =
        log.map (fun p => p.2.length) := by
  intro log
  induction log with
  | nil => intro _; rfl
  | cons p rest ih =>
    intro hnd
    rw [List.map_cons] at hnd
    obtain ⟨hnm, hnd'⟩ := List.nodup_cons.mp hnd
    rw [List.map_cons, List.map_cons, List.map_cons]
    congr 1
    · rw [assetEntries_head p rest]
    · calc (rest.map Prod.fst).map (fun a => (assetEntries (p :: rest) a).length)
          = (rest.map Prod.fst).map (fun a => (assetEntries rest a).length) := by
            apply List.map_congr_left
            intro a ha
            have hap : a ≠ p.1 := fun h => hnm (h ▸ ha)
            rw [assetEntries_tail p rest a hap]
        _ = rest.map (fun p2 => p2.2.length) := ih hnd'

/-- C6: the emitted row sequence is exactly one row per audit entry, in the
order given by iterating assets in lexical sort order and each asset's
entries in their stored order; consequently (for an audit log with distinct
asset keys, as a Python dict guarantees) the number of emitted rows equals
the total number of audit entries across all assets. -/
theorem C6_row_enumeration (log : List (String × List AuditLogEntry))
    (taxEvents : List (Nat × List TaxEventCG)) (recognized : Nat → Bool)
    (hnd : (log.map Prod.fst).Nodup) :
    exportRows log taxEvents recognized =
      (sortedAssets log).flatMap (fun a =>
        (assetEntries log a).map
          (buildRow (tr_to_pl taxEvents recognized) (tr_to_entries log) a)) ∧
    (exportRows log taxEvents recognized).length =
      (log.map (fun p => p.2.length)).sum := by
  have hflat : exportRows log taxEvents recognized =
      (sortedAssets log).flatMap (fun a =>
        (assetEntries log a).map
          (buildRow (tr_to_pl taxEvents recognized) (tr_to_entries log) a)) := by
    unfold exportRows
    rw [foldl_rows (buildRow (tr_to_pl taxEvents recognized) (tr_to_entries log))
      (assetEntries log) (sortedAssets log) []]
    rw [List.nil_append]
  refine ⟨hflat, ?_⟩
  rw [hflat, List.length_flatMap]
  have h1 : (sortedAssets log).map
      (List.length ∘ fun a => (assetEntries log a).map
        (buildRow (tr_to_pl taxEvents recognized) (tr_to_entries log) a)) =
      (sortedAssets log).map (fun a => (assetEntries log a).length) := by
    apply List.map_congr_left
    intro a _
    show ((assetEntries log a).map _).length = _
    rw [List.length_map]
  rw [h1]
  have hperm : (sortedAssets log).Perm (log.map Prod.fst) := List.mergeSort_perm _ _
  have hperm2 := hperm.map (fun a => (assetEntries log a).length)
  rw [hperm2.sum_eq]
  rw [entry_counts_of_nodup log hnd]

/-- C6 witness: the row-count invariant applied to the concrete two-asset
audit log of the C8 trade. -/
theorem C6_row_enumeration_witness :
    (c8log.map Prod.fst).Nodup ∧
    (exportRows c8log [] (fun _ => false)).length =
      (c8log.map (fun p => p.2.length)).sum :=
  ⟨by decide, (C6_row_enumeration c8log [] (fun _ => false) (by decide)).2⟩
